import Mathlib

/-!
Verification of the analytics precomputation engine (Go package `services`,
file `analytics.go`) against its natural-language specification.

Modelling conventions:
* Go `float64` money/volume values are modelled as exact rationals `ℚ`;
  IEEE rounding and overflow of individual additions are not modelled
  (the spec's properties are about the algebraic aggregation structure).
* Go `int` is modelled as `Int` (the `strconv.Atoi` 64-bit range check is kept).
* Go maps are modelled as association lists `List (String × V)` whose
  lookup/update semantics (`lookupA`, `upd`) match Go map indexing; the
  unspecified iteration order used when a map is materialized into a slice is
  modelled by an explicit entry-order argument (`Entries`, `ValidEntries`).
* `time.Time` values used by the engine are only compared (`Before`) and
  formatted as `YYYY-MM`; dates are a `GoDate` record and modification/compute
  timestamps are `Int`.
* Panics are modelled as `none`, fallible operations return `Option`/`Except`.
-/

/-- Calendar date as parsed by `time.Parse("2006-01-02", ·)`. -/
structure GoDate where
  year : Nat
  month : Nat
  day : Nat
deriving DecidableEq, Repr

/-- `models.Transaction`, restricted to the fields the fast-path parser
(`parseTransactionFast`) populates and the aggregation reads; the remaining
Go struct fields (transaction id, user id, product id, added date) are never
written nor read by the engine. -/
structure Transaction where
  Date : GoDate
  Country : String
  Region : String
  ProductName : String
  Category : String
  Price : ℚ
  Quantity : Int
  TotalPrice : ℚ
  Stock : Int
deriving DecidableEq, Repr

/-- `models.CountryRevenue`. -/
structure CountryRevenue where
  Country : String
  ProductName : String
  Category : String
  TotalRevenue : ℚ
  Transactions : Int
deriving DecidableEq, Repr

/-- `models.ProductFrequency`. -/
structure ProductFrequency where
  ProductName : String
  Category : String
  Frequency : Int
  StockQuantity : Int
deriving DecidableEq, Repr

/-- `models.MonthlyData`. -/
structure MonthlyData where
  Month : String
  Volume : ℚ
deriving DecidableEq, Repr

/-- `models.RegionRevenue`. -/
structure RegionRevenue where
  Region : String
  Revenue : ℚ
  ItemsSold : Int
deriving DecidableEq, Repr

/-- `services.PrecomputedData` (the Read Model payload); `lastModified` is an
abstract timestamp. -/
structure PrecomputedData where
  countryRevenue : List CountryRevenue
  topProducts : List ProductFrequency
  monthlySales : List MonthlyData
  topRegions : List RegionRevenue
  lastModified : Int
  recordCount : Int
deriving DecidableEq, Repr

/-! ### Association-list model of Go maps -/

/-- Go map read `m[k]` (`nil`-check modelled as `Option`). -/
def lookupA {V : Type} (m : List (String × V)) (k : String) : Option V :=
  match m with
  | [] => none
  | (k', v) :: rest => if k' = k then some v else lookupA rest k

/-- Go map write `m[k] = f(m[k])`: replace in place if the key is present,
append a fresh entry otherwise. -/
def upd {V : Type} (k : String) (f : Option V → V) : List (String × V) → List (String × V)
  | [] => [(k, f none)]
  | (k', v) :: rest => if k' = k then (k', f (some v)) :: rest else (k', v) :: upd k f rest

/-- The key column of an association list. -/
def keysA {V : Type} (m : List (String × V)) : List String :=
  m.map Prod.fst

/-- Well-formedness of the map model: no duplicate keys. -/
def NodupKeys {V : Type} (m : List (String × V)) : Prop :=
  (keysA m).Nodup

@[simp] theorem lookupA_nil {V : Type} (k : String) :
    lookupA ([] : List (String × V)) k = none := rfl

@[simp] theorem lookupA_cons {V : Type} (k0 : String) (v0 : V)
    (rest : List (String × V)) (k : String) :
    lookupA ((k0, v0) :: rest) k = if k0 = k then some v0 else lookupA rest k := rfl

@[simp] theorem keysA_nil {V : Type} : keysA ([] : List (String × V)) = [] := rfl

@[simp] theorem keysA_cons {V : Type} (p : String × V) (rest : List (String × V)) :
    keysA (p :: rest) = p.1 :: keysA rest := rfl

theorem lookup_upd_self {V : Type} (k : String) (f : Option V → V) (m : List (String × V)) :
    lookupA (upd k f m) k = some (f (lookupA m k)) := by
  induction m with
  | nil => simp [upd]
  | cons p rest ih =>
    obtain ⟨k0, v0⟩ := p
    by_cases h0 : k0 = k
    · subst h0; simp [upd]
    · simp [upd, h0, ih]

theorem lookup_upd_ne {V : Type} (k k' : String) (h : k' ≠ k) (f : Option V → V)
    (m : List (String × V)) : lookupA (upd k f m) k' = lookupA m k' := by
  induction m with
  | nil =>
    simp only [upd, lookupA_cons, lookupA_nil]
    rw [if_neg (fun hh : k = k' => h hh.symm)]
  | cons p rest ih =>
    obtain ⟨k0, v0⟩ := p
    by_cases h0 : k0 = k
    · subst h0
      have hne : ¬ k0 = k' := fun hh => h hh.symm
      simp [upd, hne]
    · simp [upd, h0, ih]

theorem lookupA_eq_none_of_not_mem {V : Type} (m : List (String × V)) (k : String)
    (h : k ∉ keysA m) : lookupA m k = none := by
  induction m with
  | nil => rfl
  | cons p rest ih =>
    obtain ⟨k0, v0⟩ := p
    simp at h
    push_neg at h
    rw [lookupA_cons, if_neg (fun hh : k0 = k => h.1 hh.symm), ih h.2]

theorem keysA_upd {V : Type} (k : String) (f : Option V → V) (m : List (String × V)) :
    keysA (upd k f m) = if k ∈ keysA m then keysA m else keysA m ++ [k] := by
  induction m with
  | nil => simp [upd]
  | cons p rest ih =>
    obtain ⟨k0, v0⟩ := p
    by_cases h0 : k0 = k
    · subst h0; simp [upd]
    · have hkk0 : ¬ k = k0 := fun h => h0 h.symm
      by_cases hm : k ∈ keysA rest
      · simp [upd, h0, ih, hm, hkk0]
      · simp [upd, h0, ih, hm, hkk0]

theorem nodupKeys_upd {V : Type} (k : String) (f : Option V → V) (m : List (String × V))
    (h : NodupKeys m) : NodupKeys (upd k f m) := by
  unfold NodupKeys at h ⊢
  rw [keysA_upd]
  by_cases hm : k ∈ keysA m
  · simpa [hm]
  · simp [hm, List.nodup_append, h]

/-- Merging one map into another, entry by entry (the shared shape of the four
`merge*Results` functions): fold the local map's entries into the global map. -/
def mergeWith {V : Type} (f : Option V → V → V) (g loc : List (String × V)) :
    List (String × V) :=
  loc.foldl (fun acc kv => upd kv.1 (fun old => f old kv.2) acc) g

theorem lookup_mergeWith {V : Type} (f : Option V → V → V)
    (loc : List (String × V)) (h : NodupKeys loc) (g : List (String × V)) (k : String) :
    lookupA (mergeWith f g loc) k =
      match lookupA loc k with
      | none => lookupA g k
      | some v => some (f (lookupA g k) v) := by
  induction loc generalizing g with
  | nil => simp [mergeWith]
  | cons p rest ih =>
    obtain ⟨k0, v0⟩ := p
    have hnd : NodupKeys rest := by
      unfold NodupKeys at h ⊢
      simp at h
      exact h.2
    have hk0 : k0 ∉ keysA rest := by
      unfold NodupKeys at h
      simp at h
      exact h.1
    have hstep : mergeWith f g ((k0, v0) :: rest) =
        mergeWith f (upd k0 (fun old => f old v0) g) rest := rfl
    rw [hstep, ih hnd]
    by_cases hkk : k0 = k
    · subst hkk
      rw [lookupA_eq_none_of_not_mem rest k0 hk0]
      simp [lookup_upd_self]
    · have hne : k ≠ k0 := fun hh => hkk hh.symm
      cases hrest : lookupA rest k <;> simp [hkk, lookup_upd_ne k0 k hne, hrest]

/-! ### Parsing (`parseTransactionFast` and the Go stdlib functions it calls) -/

/-- Character-level splitter behind `splitComma`: every comma starts a new
field, so `n` commas yield `n + 1` fields and the empty input yields one
empty field, exactly as `strings.Split` does. -/
def splitCommaChars : List Char → List (List Char)
  | [] => [[]]
  | c :: rest =>
    match splitCommaChars rest with
    | [] => [[c]]
    | g :: gs => if c = ',' then [] :: g :: gs else (c :: g) :: gs

/-- `strings.Split(line, ",")`. -/
def splitComma (s : String) : List String :=
  (splitCommaChars s.data).map (fun l => ⟨l⟩)

/-- The whitespace class trimmed by `strings.TrimSpace`; the engine's CSV
fields are Latin-1, so the Unicode space classes beyond U+00A0 never occur
and are omitted. -/
def isSpaceGo (c : Char) : Bool :=
  c = ' ' ∨ c = '\t' ∨ c = '\n' ∨ c = '\x0b' ∨ c = '\x0c' ∨ c = '\r' ∨
    c = '\x85' ∨ c = '\xa0'

/-- `strings.TrimSpace`. -/
def trimSpaceGo (s : String) : String :=
  ⟨((s.data.dropWhile isSpaceGo).reverse.dropWhile isSpaceGo).reverse⟩

/-- Decimal digit run to a number. -/
def digitsToNat (l : List Char) : Nat :=
  l.foldl (fun n c => n * 10 + (c.toNat - '0'.toNat)) 0

/-- Leap year as in Go's `time` package. -/
def isLeapGo (y : Nat) : Bool :=
  y % 4 = 0 ∧ (y % 100 ≠ 0 ∨ y % 400 = 0)

/-- Days in a month, as validated by Go's `time.Parse`. -/
def daysInMonthGo (y m : Nat) : Nat :=
  if m = 2 then (if isLeapGo y then 29 else 28)
  else if m = 4 ∨ m = 6 ∨ m = 9 ∨ m = 11 then 30
  else 31

/-- `time.Parse("2006-01-02", s)`: exactly `YYYY-MM-DD` with zero-padded
numeric components, month in 1..12 and day valid for the month. -/
def parseDateGo (s : String) : Option GoDate :=
  match s.data with
  | [y1, y2, y3, y4, '-', m1, m2, '-', d1, d2] =>
    if ([y1, y2, y3, y4, m1, m2, d1, d2].all Char.isDigit) then
      let y := digitsToNat [y1, y2, y3, y4]
      let m := digitsToNat [m1, m2]
      let d := digitsToNat [d1, d2]
      if 1 ≤ m ∧ m ≤ 12 ∧ 1 ≤ d ∧ d ≤ daysInMonthGo y m then some ⟨y, m, d⟩ else none
    else none
  | _ => none

/-- `strconv.ParseFloat(s, 64)` over the decimal grammar
`[+-]? digits [. digits] [eE [+-] digits]` (at least one mantissa digit,
the whole string consumed); values are kept as exact rationals, so IEEE
rounding and the overflow/underflow range error are not modelled, and the
`Inf`/`NaN`/hexadecimal spellings (never produced by this data set) are
omitted. -/
def parseFloatGo (s : String) : Option ℚ :=
  let cs := s.data
  let sgncs : ℚ × List Char :=
    match cs with
    | '+' :: rest => (1, rest)
    | '-' :: rest => (-1, rest)
    | rest => (1, rest)
  let ip := sgncs.2.takeWhile Char.isDigit
  let cs2 := sgncs.2.dropWhile Char.isDigit
  let fpcs : List Char × List Char :=
    match cs2 with
    | '.' :: rest => (rest.takeWhile Char.isDigit, rest.dropWhile Char.isDigit)
    | rest => ([], rest)
  if ip.isEmpty ∧ fpcs.1.isEmpty then none
  else
    let mant : ℚ := (digitsToNat (ip ++ fpcs.1) : ℚ) / (10 : ℚ) ^ fpcs.1.length
    match fpcs.2 with
    | [] => some (sgncs.1 * mant)
    | e :: rest =>
      if e = 'e' ∨ e = 'E' then
        let esgn : Int × List Char :=
          match rest with
          | '+' :: r => (1, r)
          | '-' :: r => (-1, r)
          | r => (1, r)
        let ed := esgn.2.takeWhile Char.isDigit
        let rest3 := esgn.2.dropWhile Char.isDigit
        if ed.isEmpty ∨ ¬ rest3.isEmpty then none
        else some (sgncs.1 * mant * (10 : ℚ) ^ (esgn.1 * (digitsToNat ed : Int)))
      else none

/-- `strconv.Atoi(s)`: `[+-]? digits`, whole string consumed, result within
the 64-bit `int` range. -/
def parseIntGo (s : String) : Option Int :=
  let cs := s.data
  let sgncs : Bool × List Char :=
    match cs with
    | '+' :: rest => (false, rest)
    | '-' :: rest => (true, rest)
    | rest => (false, rest)
  if sgncs.2.isEmpty ∨ ¬ (sgncs.2.all Char.isDigit) then none
  else
    let n : Int := (digitsToNat sgncs.2 : Int)
    let v := if sgncs.1 then -n else n
    if v < -(2 ^ 63) ∨ 2 ^ 63 - 1 < v then none else some v

/-- `parseTransactionFast(record)`: requires at least 13 fields, parses the
date, price, quantity, total price and stock fields (each trimmed), and on
success builds the `Transaction` from positions 1, 3, 4, 6, 7, 8, 9, 10, 11;
any failure yields no transaction at all. -/
def parseTransactionFast (record : List String) : Option Transaction :=
  if record.length < 13 then none
  else
    match parseDateGo (trimSpaceGo (record.getD 1 "")) with
    | none => none
    | some transactionDate =>
      match parseFloatGo (trimSpaceGo (record.getD 8 "")) with
      | none => none
      | some price =>
        match parseIntGo (trimSpaceGo (record.getD 9 "")) with
        | none => none
        | some quantity =>
          match parseFloatGo (trimSpaceGo (record.getD 10 "")) with
          | none => none
          | some totalPrice =>
            match parseIntGo (trimSpaceGo (record.getD 11 "")) with
            | none => none
            | some stock =>
              some { Date := transactionDate,
                     Country := trimSpaceGo (record.getD 3 ""),
                     Region := trimSpaceGo (record.getD 4 ""),
                     ProductName := trimSpaceGo (record.getD 6 ""),
                     Category := trimSpaceGo (record.getD 7 ""),
                     Price := price,
                     Quantity := quantity,
                     TotalPrice := totalPrice,
                     Stock := stock }

/-! ### Aggregation (`aggregateTransaction`) and merge (`merge*Results`) -/

/-- Zero-pad to two digits, as `time.Time.Format` does for `01`. -/
def pad2 (n : Nat) : String :=
  if n < 10 then "0" ++ toString n else toString n

/-- Zero-pad to four digits, as `time.Time.Format` does for `2006`. -/
def pad4 (n : Nat) : String :=
  if n < 10 then "000" ++ toString n
  else if n < 100 then "00" ++ toString n
  else if n < 1000 then "0" ++ toString n
  else toString n

/-- `tx.Date.Format("2006-01")`, the monthly-rollup key. -/
def monthKey (d : GoDate) : String :=
  pad4 d.year ++ "-" ++ pad2 d.month

/-- The CountryRevenue composite key `tx.Country + "|" + tx.ProductName + "|" + tx.Category`. -/
def countryKey (tx : Transaction) : String :=
  tx.Country ++ "|" ++ tx.ProductName ++ "|" ++ tx.Category

/-- One transaction's effect on a CountryRevenue map slot: create the entry if
absent (zero totals plus the key fields), then add the revenue and bump the
count — collapsing create-then-accumulate into one value per branch. -/
def fC (tx : Transaction) : Option CountryRevenue → CountryRevenue
  | none => { Country := tx.Country, ProductName := tx.ProductName, Category := tx.Category,
              TotalRevenue := tx.TotalPrice, Transactions := 1 }
  | some g => { g with TotalRevenue := g.TotalRevenue + tx.TotalPrice,
                       Transactions := g.Transactions + 1 }

/-- One transaction's effect on a ProductFrequency map slot: the entry is
created with the first-seen category and stock, and only the frequency is
bumped afterwards. -/
def fP (tx : Transaction) : Option ProductFrequency → ProductFrequency
  | none => { ProductName := tx.ProductName, Category := tx.Category,
              Frequency := 1, StockQuantity := tx.Stock }
  | some g => { g with Frequency := g.Frequency + 1 }

/-- One transaction's effect on a monthly-sales map slot (`map[string]float64`,
missing key reads as 0). -/
def fM (tx : Transaction) : Option ℚ → ℚ
  | none => tx.TotalPrice
  | some q => q + tx.TotalPrice

/-- One transaction's effect on a RegionRevenue map slot. -/
def fR (tx : Transaction) : Option RegionRevenue → RegionRevenue
  | none => { Region := tx.Region, Revenue := tx.TotalPrice, ItemsSold := tx.Quantity }
  | some g => { g with Revenue := g.Revenue + tx.TotalPrice,
                       ItemsSold := g.ItemsSold + tx.Quantity }

/-- The four aggregation maps built during one load. -/
structure AggState where
  country : List (String × CountryRevenue)
  product : List (String × ProductFrequency)
  monthly : List (String × ℚ)
  region : List (String × RegionRevenue)
deriving DecidableEq

def emptyAgg : AggState := ⟨[], [], [], []⟩

/-- `aggregateTransaction`: fold one transaction into the four maps. -/
def aggregateTransaction (tx : Transaction) (s : AggState) : AggState :=
  { country := upd (countryKey tx) (fC tx) s.country,
    product := upd tx.ProductName (fP tx) s.product,
    monthly := upd (monthKey tx.Date) (fM tx) s.monthly,
    region := upd tx.Region (fR tx) s.region }

/-- Aggregating a whole list of transactions, in order, from the empty state
(the sequential loop of `processBatch` / `computeAnalytics`). -/
def aggregateAll (l : List Transaction) : AggState :=
  l.foldl (fun s tx => aggregateTransaction tx s) emptyAgg

/-- The merge combinator of `mergeResults`: clone the local entry (key fields,
zero totals) when the global slot is empty, then accumulate both counters. -/
def mC : Option CountryRevenue → CountryRevenue → CountryRevenue
  | none, v => { Country := v.Country, ProductName := v.ProductName, Category := v.Category,
                 TotalRevenue := v.TotalRevenue, Transactions := v.Transactions }
  | some g, v => { g with TotalRevenue := g.TotalRevenue + v.TotalRevenue,
                          Transactions := g.Transactions + v.Transactions }

/-- The merge combinator of `mergeProductResults`: the clone carries the local
category and stock, and only frequencies accumulate. -/
def mP : Option ProductFrequency → ProductFrequency → ProductFrequency
  | none, v => { ProductName := v.ProductName, Category := v.Category,
                 Frequency := v.Frequency, StockQuantity := v.StockQuantity }
  | some g, v => { g with Frequency := g.Frequency + v.Frequency }

/-- The merge combinator of `mergeMonthlyResults` (`global[k] += v`). -/
def mM : Option ℚ → ℚ → ℚ
  | none, v => v
  | some g, v => g + v

/-- The merge combinator of `mergeRegionResults`. -/
def mR : Option RegionRevenue → RegionRevenue → RegionRevenue
  | none, v => { Region := v.Region, Revenue := v.Revenue, ItemsSold := v.ItemsSold }
  | some g, v => { g with Revenue := g.Revenue + v.Revenue,
                          ItemsSold := g.ItemsSold + v.ItemsSold }

/-- `mergeResults(local, global)`. -/
def mergeResults (loc glob : List (String × CountryRevenue)) : List (String × CountryRevenue) :=
  mergeWith mC glob loc

/-- `mergeProductResults(local, global)`. -/
def mergeProductResults (loc glob : List (String × ProductFrequency)) :
    List (String × ProductFrequency) :=
  mergeWith mP glob loc

/-- `mergeMonthlyResults(local, global)`. -/
def mergeMonthlyResults (loc glob : List (String × ℚ)) : List (String × ℚ) :=
  mergeWith mM glob loc

/-- `mergeRegionResults(local, global)`. -/
def mergeRegionResults (loc glob : List (String × RegionRevenue)) :
    List (String × RegionRevenue) :=
  mergeWith mR glob loc

/-- The merge step at the end of `processBatch`: fold the batch-local maps
into the global maps. -/
def mergeLocalIntoGlobal (loc glob : AggState) : AggState :=
  { country := mergeResults loc.country glob.country,
    product := mergeProductResults loc.product glob.product,
    monthly := mergeMonthlyResults loc.monthly glob.monthly,
    region := mergeRegionResults loc.region glob.region }

/-! ### Rollup finalization (`sort*`), Read Model and queries -/

/-- Descending insertion sort by a metric: the comparator of the four
`slices.SortFunc` calls orders `a` before `b` whenever `metric a > metric b`
and reports ties as equal, so the only guarantee the source sort gives is a
descending arrangement of the input entries; insertion sort realizes it. -/
def sortDesc {α β : Type} [LinearOrder β] (f : α → β) (l : List α) : List α :=
  @List.insertionSort α (fun a b => f b ≤ f a)
    (fun a b => inferInstanceAs (Decidable (f b ≤ f a))) l

/-- `sortCountryRevenue`, from the map's value slice. -/
def sortCountryRevenue (entries : List CountryRevenue) : List CountryRevenue :=
  sortDesc (fun cr => cr.TotalRevenue) entries

/-- `sortTopProducts`. -/
def sortTopProducts (entries : List ProductFrequency) : List ProductFrequency :=
  sortDesc (fun pf => pf.Frequency) entries

/-- `sortMonthlySales`. -/
def sortMonthlySales (entries : List MonthlyData) : List MonthlyData :=
  sortDesc (fun md => md.Volume) entries

/-- `sortTopRegions`. -/
def sortTopRegions (entries : List RegionRevenue) : List RegionRevenue :=
  sortDesc (fun rr => rr.Revenue) entries

/-- The value slices handed to the four sorts when the maps are materialized;
Go map iteration order is unspecified, so any permutation of the entries may
be observed (`ValidEntries`). -/
structure Entries where
  country : List CountryRevenue
  product : List ProductFrequency
  monthly : List MonthlyData
  region : List RegionRevenue
deriving DecidableEq

/-- One admissible materialization order: the maps' own entry order. -/
def canonEntries (s : AggState) : Entries :=
  { country := s.country.map Prod.snd,
    product := s.product.map Prod.snd,
    monthly := s.monthly.map (fun kv => { Month := kv.1, Volume := kv.2 }),
    region := s.region.map Prod.snd }

/-- The entry slices a Go map iteration may yield: any permutation of the
map's entries. -/
def ValidEntries (s : AggState) (e : Entries) : Prop :=
  List.Perm e.country (canonEntries s).country ∧
  List.Perm e.product (canonEntries s).product ∧
  List.Perm e.monthly (canonEntries s).monthly ∧
  List.Perm e.region (canonEntries s).region

/-- Building the `PrecomputedData` snapshot from materialized entry slices. -/
def finalizeWith (e : Entries) (cnt : Int) (now : Int) : PrecomputedData :=
  { countryRevenue := sortCountryRevenue e.country,
    topProducts := sortTopProducts e.product,
    monthlySales := sortMonthlySales e.monthly,
    topRegions := sortTopRegions e.region,
    lastModified := now,
    recordCount := cnt }

/-- `computeAnalytics(data)` with an explicit materialization order. -/
def computeAnalyticsWith (data : List Transaction) (e : Entries) (now : Int) :
    PrecomputedData :=
  finalizeWith e (data.length : Int) now

/-- `computeAnalytics(data)` under the canonical materialization order. -/
def computeAnalytics (data : List Transaction) (now : Int) : PrecomputedData :=
  computeAnalyticsWith data (canonEntries (aggregateAll data)) now

/-- `SetData(data)`: recompute the snapshot from in-memory transactions and
swap it in (`RecordCount`/`LastModified` are overwritten with the same values
`computeAnalytics` already set). -/
def SetData (data : List Transaction) (e : Entries) (now : Int) : PrecomputedData :=
  computeAnalyticsWith data e now

/-- `TopProducts(limit)`: return the whole pre-sorted slice when it has at
most `limit` entries, otherwise the prefix `[:limit]`; a negative `limit`
reaches the slice expression with a negative bound, which panics (`none`). -/
def TopProducts (pre : PrecomputedData) (limit : Int) : Option (List ProductFrequency) :=
  if (pre.topProducts.length : Int) ≤ limit then some pre.topProducts
  else if 0 ≤ limit then some (pre.topProducts.take limit.toNat)
  else none

/-- `TopRegions(limit)`, same truncation as `TopProducts`. -/
def TopRegions (pre : PrecomputedData) (limit : Int) : Option (List RegionRevenue) :=
  if (pre.topRegions.length : Int) ≤ limit then some pre.topRegions
  else if 0 ≤ limit then some (pre.topRegions.take limit.toNat)
  else none

/-! ### Streaming load (`streamProcessCSV`, `LoadFromCSV`) -/

def batchSize : Nat := 10000

/-- Group a list into chunks of `n + 1` elements (the final chunk may be
shorter): the batching loop of `streamProcessCSV` with batch size `n + 1`. -/
def chunksBy {α : Type} (n : Nat) (l : List α) : List (List α) :=
  match l with
  | [] => []
  | x :: xs => (x :: xs.take n) :: chunksBy n (xs.drop n)
termination_by l.length
decreasing_by simp [List.length_drop]; omega

/-- `processBatch`: parse every line of the batch (invalid rows dropped),
aggregate the valid transactions sequentially into batch-local maps, then
merge them into the global maps and add the batch's valid-row count. -/
def processBatch (acc : AggState × Int) (batch : List String) : AggState × Int :=
  let txs := batch.filterMap (fun line => parseTransactionFast (splitComma line))
  (mergeLocalIntoGlobal (aggregateAll txs) acc.1, acc.2 + (txs.length : Int))

/-- Load errors surfaced by the engine. -/
inductive LoadErr where
  | emptyFile
  | noValidRecords
deriving DecidableEq, Repr

/-- `streamProcessCSV` over the file's lines: fail on a file with no lines,
drop the header, process the remaining lines in batches of `batchSize`, fail
if no valid record was found, and otherwise finalize the four maps under the
canonical materialization order. -/
def streamProcessCSV (lines : List String) (now : Int) : Except LoadErr PrecomputedData :=
  match lines with
  | [] => Except.error LoadErr.emptyFile
  | _ :: rest =>
    let res := (chunksBy (batchSize - 1) rest).foldl processBatch (emptyAgg, 0)
    if res.2 = 0 then Except.error LoadErr.noValidRecords
    else Except.ok (finalizeWith (canonEntries res.1) res.2 now)

/-- The observable outcome of one `LoadFromCSV` call: the snapshot published
afterwards, the returned error, and whether the cache path was taken (the
"loaded from cache" log line). -/
structure LoadOutcome where
  snapshot : PrecomputedData
  err : Option LoadErr
  usedCache : Bool
deriving DecidableEq

/-- `LoadFromCSV`: `prior` is the snapshot published before the call, `cache`
the result of `loadFromCache` (`none` for any open/decode failure), `srcMod`
the source file's modification time (`none` when `os.Stat` fails), `lines`
the source file's lines. The cache is installed only when it loaded, the stat
succeeded and the source's mtime is strictly before the snapshot's
`LastModified`; otherwise the file is recomputed, and on error the prior
snapshot stays published. (The best-effort cache write after a successful
recomputation has no observable effect on the outcome and is omitted.) -/
def LoadFromCSV (prior : PrecomputedData) (cache : Option PrecomputedData)
    (srcMod : Option Int) (lines : List String) (now : Int) : LoadOutcome :=
  let recompute : LoadOutcome :=
    match streamProcessCSV lines now with
    | Except.ok p => { snapshot := p, err := none, usedCache := false }
    | Except.error e => { snapshot := prior, err := some e, usedCache := false }
  match cache with
  | some cached =>
    match srcMod with
    | some t =>
      if t < cached.lastModified then
        { snapshot := cached, err := none, usedCache := true }
      else recompute
    | none => recompute
  | none => recompute

/-! ### Characterization lemmas for aggregation and merge -/

/-- Generic single-map aggregation: fold transactions into one keyed map. -/
def aggMap {V : Type} (key : Transaction → String) (f : Transaction → Option V → V)
    (l : List Transaction) : List (String × V) :=
  l.foldl (fun m tx => upd (key tx) (f tx) m) []

theorem aggMap_nil {V : Type} (key : Transaction → String)
    (f : Transaction → Option V → V) : aggMap key f [] = [] := rfl

theorem aggMap_append_singleton {V : Type} (key : Transaction → String)
    (f : Transaction → Option V → V) (l : List Transaction) (tx : Transaction) :
    aggMap key f (l ++ [tx]) = upd (key tx) (f tx) (aggMap key f l) := by
  simp [aggMap, List.foldl_append]

theorem nodup_aggMap {V : Type} (key : Transaction → String)
    (f : Transaction → Option V → V) (l : List Transaction) :
    NodupKeys (aggMap key f l) := by
  induction l using List.reverseRecOn with
  | nil => simp [aggMap, NodupKeys, keysA]
  | append_singleton l tx ih =>
    rw [aggMap_append_singleton]
    exact nodupKeys_upd _ _ _ ih

/-- The fundamental characterization: the slot of key `k` after aggregating
`l` equals the fold of `f` over exactly the transactions of `l` hitting `k`,
in order. -/
theorem lookup_aggMap {V : Type} (key : Transaction → String)
    (f : Transaction → Option V → V) (l : List Transaction) (k : String) :
    lookupA (aggMap key f l) k =
      (l.filter (fun tx => key tx = k)).foldl (fun acc tx => some (f tx acc)) none := by
  induction l using List.reverseRecOn with
  | nil => rfl
  | append_singleton l tx ih =>
    rw [aggMap_append_singleton, List.filter_append]
    by_cases hk : key tx = k
    · rw [show upd (key tx) (f tx) (aggMap key f l) = upd k (f tx) (aggMap key f l) from by
        rw [hk]]
      rw [lookup_upd_self, ih]
      simp [hk, List.foldl_append]
    · rw [lookup_upd_ne (key tx) k (fun hh => hk hh.symm), ih]
      simp [hk]

theorem aggregateAll_country (l : List Transaction) :
    (aggregateAll l).country = aggMap countryKey fC l := by
  suffices h : ∀ s : AggState,
      (l.foldl (fun s tx => aggregateTransaction tx s) s).country =
        l.foldl (fun m tx => upd (countryKey tx) (fC tx) m) s.country from h emptyAgg
  induction l with
  | nil => intro s; rfl
  | cons tx l ih => intro s; exact ih (aggregateTransaction tx s)

theorem aggregateAll_product (l : List Transaction) :
    (aggregateAll l).product = aggMap (fun tx => tx.ProductName) fP l := by
  suffices h : ∀ s : AggState,
      (l.foldl (fun s tx => aggregateTransaction tx s) s).product =
        l.foldl (fun m tx => upd tx.ProductName (fP tx) m) s.product from h emptyAgg
  induction l with
  | nil => intro s; rfl
  | cons tx l ih => intro s; exact ih (aggregateTransaction tx s)

theorem aggregateAll_monthly (l : List Transaction) :
    (aggregateAll l).monthly = aggMap (fun tx => monthKey tx.Date) fM l := by
  suffices h : ∀ s : AggState,
      (l.foldl (fun s tx => aggregateTransaction tx s) s).monthly =
        l.foldl (fun m tx => upd (monthKey tx.Date) (fM tx) m) s.monthly from h emptyAgg
  induction l with
  | nil => intro s; rfl
  | cons tx l ih => intro s; exact ih (aggregateTransaction tx s)

theorem aggregateAll_region (l : List Transaction) :
    (aggregateAll l).region = aggMap (fun tx => tx.Region) fR l := by
  suffices h : ∀ s : AggState,
      (l.foldl (fun s tx => aggregateTransaction tx s) s).region =
        l.foldl (fun m tx => upd tx.Region (fR tx) m) s.region from h emptyAgg
  induction l with
  | nil => intro s; rfl
  | cons tx l ih => intro s; exact ih (aggregateTransaction tx s)

/-- Shifting the start of a CountryRevenue slot-fold: running from `a` equals
running from empty and merging the result onto `a` with `mC`. -/
theorem foldC_shift (fl : List Transaction) (a : Option CountryRevenue) :
    fl.foldl (fun acc tx => some (fC tx acc)) a =
      match fl.foldl (fun acc tx => some (fC tx acc)) none with
      | none => a
      | some v => some (mC a v) := by
  induction fl using List.reverseRecOn generalizing a with
  | nil => cases a <;> rfl
  | append_singleton fl tx ih =>
    rw [List.foldl_append, List.foldl_append, ih a, ih (none : Option CountryRevenue)]
    cases hF : fl.foldl (fun acc tx => some (fC tx acc)) none <;> cases a <;>
      simp [fC, mC] <;> constructor <;> ring

theorem foldP_shift (fl : List Transaction) (a : Option ProductFrequency) :
    fl.foldl (fun acc tx => some (fP tx acc)) a =
      match fl.foldl (fun acc tx => some (fP tx acc)) none with
      | none => a
      | some v => some (mP a v) := by
  induction fl using List.reverseRecOn generalizing a with
  | nil => cases a <;> rfl
  | append_singleton fl tx ih =>
    rw [List.foldl_append, List.foldl_append, ih a, ih (none : Option ProductFrequency)]
    cases hF : fl.foldl (fun acc tx => some (fP tx acc)) none <;> cases a <;>
      simp [fP, mP] <;> omega

theorem foldM_shift (fl : List Transaction) (a : Option ℚ) :
    fl.foldl (fun acc tx => some (fM tx acc)) a =
      match fl.foldl (fun acc tx => some (fM tx acc)) none with
      | none => a
      | some v => some (mM a v) := by
  induction fl using List.reverseRecOn generalizing a with
  | nil => cases a <;> rfl
  | append_singleton fl tx ih =>
    rw [List.foldl_append, List.foldl_append, ih a, ih (none : Option ℚ)]
    cases hF : fl.foldl (fun acc tx => some (fM tx acc)) none <;> cases a <;>
      simp [fM, mM] <;> ring

theorem foldR_shift (fl : List Transaction) (a : Option RegionRevenue) :
    fl.foldl (fun acc tx => some (fR tx acc)) a =
      match fl.foldl (fun acc tx => some (fR tx acc)) none with
      | none => a
      | some v => some (mR a v) := by
  induction fl using List.reverseRecOn generalizing a with
  | nil => cases a <;> rfl
  | append_singleton fl tx ih =>
    rw [List.foldl_append, List.foldl_append, ih a, ih (none : Option RegionRevenue)]
    cases hF : fl.foldl (fun acc tx => some (fR tx acc)) none <;> cases a <;>
      simp [fR, mR] <;> constructor <;> ring

/-- Merging the aggregate of `lb` into a global map behaving like the
aggregate of `la` behaves like the aggregate of `la ++ lb` (CountryRevenue). -/
theorem merge_aggMap_country (la lb : List Transaction)
    (g : List (String × CountryRevenue))
    (hg : ∀ k, lookupA g k = lookupA (aggMap countryKey fC la) k) (k : String) :
    lookupA (mergeWith mC g (aggMap countryKey fC lb)) k =
      lookupA (aggMap countryKey fC (la ++ lb)) k := by
  rw [lookup_mergeWith mC _ (nodup_aggMap _ _ lb) g k, lookup_aggMap, lookup_aggMap, hg k,
    lookup_aggMap, List.filter_append, List.foldl_append]
  conv_rhs => rw [foldC_shift]
  generalize List.foldl (fun acc tx => some (fC tx acc)) none
    (List.filter (fun tx => decide (countryKey tx = k)) lb) = X
  cases X <;> rfl

theorem merge_aggMap_product (la lb : List Transaction)
    (g : List (String × ProductFrequency))
    (hg : ∀ k, lookupA g k = lookupA (aggMap (fun tx => tx.ProductName) fP la) k)
    (k : String) :
    lookupA (mergeWith mP g (aggMap (fun tx => tx.ProductName) fP lb)) k =
      lookupA (aggMap (fun tx => tx.ProductName) fP (la ++ lb)) k := by
  rw [lookup_mergeWith mP _ (nodup_aggMap _ _ lb) g k, lookup_aggMap, lookup_aggMap, hg k,
    lookup_aggMap, List.filter_append, List.foldl_append]
  conv_rhs => rw [foldP_shift]
  generalize List.foldl (fun acc tx => some (fP tx acc)) none
    (List.filter (fun tx => decide (tx.ProductName = k)) lb) = X
  cases X <;> rfl

theorem merge_aggMap_monthly (la lb : List Transaction)
    (g : List (String × ℚ))
    (hg : ∀ k, lookupA g k = lookupA (aggMap (fun tx => monthKey tx.Date) fM la) k)
    (k : String) :
    lookupA (mergeWith mM g (aggMap (fun tx => monthKey tx.Date) fM lb)) k =
      lookupA (aggMap (fun tx => monthKey tx.Date) fM (la ++ lb)) k := by
  rw [lookup_mergeWith mM _ (nodup_aggMap _ _ lb) g k, lookup_aggMap, lookup_aggMap, hg k,
    lookup_aggMap, List.filter_append, List.foldl_append]
  conv_rhs => rw [foldM_shift]
  generalize List.foldl (fun acc tx => some (fM tx acc)) none
    (List.filter (fun tx => decide (monthKey tx.Date = k)) lb) = X
  cases X <;> rfl

theorem merge_aggMap_region (la lb : List Transaction)
    (g : List (String × RegionRevenue))
    (hg : ∀ k, lookupA g k = lookupA (aggMap (fun tx => tx.Region) fR la) k)
    (k : String) :
    lookupA (mergeWith mR g (aggMap (fun tx => tx.Region) fR lb)) k =
      lookupA (aggMap (fun tx => tx.Region) fR (la ++ lb)) k := by
  rw [lookup_mergeWith mR _ (nodup_aggMap _ _ lb) g k, lookup_aggMap, lookup_aggMap, hg k,
    lookup_aggMap, List.filter_append, List.foldl_append]
  conv_rhs => rw [foldR_shift]
  generalize List.foldl (fun acc tx => some (fR tx acc)) none
    (List.filter (fun tx => decide (tx.Region = k)) lb) = X
  cases X <;> rfl

/-- A global state whose four maps behave like the direct aggregate of `la`,
merged with the batch-local aggregate of `lb`, behaves like the direct
aggregate of `la ++ lb`. -/
theorem mergeLocal_pointwise (la lb : List Transaction) (g : AggState)
    (hgc : ∀ k, lookupA g.country k = lookupA (aggregateAll la).country k)
    (hgp : ∀ k, lookupA g.product k = lookupA (aggregateAll la).product k)
    (hgm : ∀ k, lookupA g.monthly k = lookupA (aggregateAll la).monthly k)
    (hgr : ∀ k, lookupA g.region k = lookupA (aggregateAll la).region k) (k : String) :
    lookupA (mergeLocalIntoGlobal (aggregateAll lb) g).country k =
        lookupA (aggregateAll (la ++ lb)).country k ∧
      lookupA (mergeLocalIntoGlobal (aggregateAll lb) g).product k =
        lookupA (aggregateAll (la ++ lb)).product k ∧
      lookupA (mergeLocalIntoGlobal (aggregateAll lb) g).monthly k =
        lookupA (aggregateAll (la ++ lb)).monthly k ∧
      lookupA (mergeLocalIntoGlobal (aggregateAll lb) g).region k =
        lookupA (aggregateAll (la ++ lb)).region k := by
  refine ⟨?_, ?_, ?_, ?_⟩
  · show lookupA (mergeResults (aggregateAll lb).country g.country) k = _
    rw [mergeResults, aggregateAll_country lb, aggregateAll_country (la ++ lb)]
    exact merge_aggMap_country la lb g.country
      (fun k => by rw [hgc k, aggregateAll_country la]) k
  · show lookupA (mergeProductResults (aggregateAll lb).product g.product) k = _
    rw [mergeProductResults, aggregateAll_product lb, aggregateAll_product (la ++ lb)]
    exact merge_aggMap_product la lb g.product
      (fun k => by rw [hgp k, aggregateAll_product la]) k
  · show lookupA (mergeMonthlyResults (aggregateAll lb).monthly g.monthly) k = _
    rw [mergeMonthlyResults, aggregateAll_monthly lb, aggregateAll_monthly (la ++ lb)]
    exact merge_aggMap_monthly la lb g.monthly
      (fun k => by rw [hgm k, aggregateAll_monthly la]) k
  · show lookupA (mergeRegionResults (aggregateAll lb).region g.region) k = _
    rw [mergeRegionResults, aggregateAll_region lb, aggregateAll_region (la ++ lb)]
    exact merge_aggMap_region la lb g.region
      (fun k => by rw [hgr k, aggregateAll_region la]) k

/-- Two batches merged into an initially-empty global state behave pointwise
like the direct aggregation of the concatenated input. -/
theorem mergedTwo_pointwise (l1 l2 : List Transaction) (k : String) :
    lookupA (mergeLocalIntoGlobal (aggregateAll l2)
        (mergeLocalIntoGlobal (aggregateAll l1) emptyAgg)).country k =
      lookupA (aggregateAll (l1 ++ l2)).country k ∧
    lookupA (mergeLocalIntoGlobal (aggregateAll l2)
        (mergeLocalIntoGlobal (aggregateAll l1) emptyAgg)).product k =
      lookupA (aggregateAll (l1 ++ l2)).product k ∧
    lookupA (mergeLocalIntoGlobal (aggregateAll l2)
        (mergeLocalIntoGlobal (aggregateAll l1) emptyAgg)).monthly k =
      lookupA (aggregateAll (l1 ++ l2)).monthly k ∧
    lookupA (mergeLocalIntoGlobal (aggregateAll l2)
        (mergeLocalIntoGlobal (aggregateAll l1) emptyAgg)).region k =
      lookupA (aggregateAll (l1 ++ l2)).region k := by
  have h1 := fun k => mergeLocal_pointwise [] l1 emptyAgg
    (fun _ => rfl) (fun _ => rfl) (fun _ => rfl) (fun _ => rfl) k
  exact mergeLocal_pointwise l1 l2 _
    (fun k => (h1 k).1) (fun k => (h1 k).2.1) (fun k => (h1 k).2.2.1)
    (fun k => (h1 k).2.2.2) k

/-- Folding further transactions onto an existing ProductFrequency slot only
adds to the frequency; category and stock are untouched. -/
theorem foldP_from_some (fl : List Transaction) (e : ProductFrequency) :
    fl.foldl (fun acc t => some (fP t acc)) (some e) =
      some { e with Frequency := e.Frequency + (fl.length : Int) } := by
  induction fl generalizing e with
  | nil => simp
  | cons t fl ih =>
    show fl.foldl (fun acc t => some (fP t acc)) (some (fP t (some e))) = _
    rw [ih (fP t (some e))]
    simp [fP]
    omega

/-- Closed form of a nonempty ProductFrequency slot-fold: the first
transaction fixes the name, category and stock; each later one only bumps the
frequency. -/
theorem foldP_closed (tx : Transaction) (rest : List Transaction) :
    (tx :: rest).foldl (fun acc t => some (fP t acc)) none =
      some { ProductName := tx.ProductName, Category := tx.Category,
             Frequency := 1 + (rest.length : Int), StockQuantity := tx.Stock } := by
  show rest.foldl (fun acc t => some (fP t acc)) (some (fP tx none)) = _
  rw [foldP_from_some rest (fP tx none)]
  simp [fP]
  try omega

/-- Folding further transactions onto an existing CountryRevenue slot leaves
the key fields untouched. -/
theorem foldC_from_some_fields (fl : List Transaction) (e : CountryRevenue) :
    ∃ e', fl.foldl (fun acc t => some (fC t acc)) (some e) = some e' ∧
      e'.Country = e.Country ∧ e'.ProductName = e.ProductName ∧
      e'.Category = e.Category := by
  induction fl generalizing e with
  | nil => exact ⟨e, rfl, rfl, rfl, rfl⟩
  | cons t fl ih =>
    obtain ⟨e', he', h1, h2, h3⟩ := ih (fC t (some e))
    exact ⟨e', he', by rw [h1]; rfl, by rw [h2]; rfl, by rw [h3]; rfl⟩

/-- Every entry of the CountryRevenue map sits at the key rebuilt from its
own (country, product, category) fields. -/
theorem country_entry_key (l : List Transaction) (k : String) (e : CountryRevenue)
    (h : lookupA (aggregateAll l).country k = some e) :
    e.Country ++ "|" ++ e.ProductName ++ "|" ++ e.Category = k := by
  rw [aggregateAll_country, lookup_aggMap] at h
  cases hf : l.filter (fun tx => countryKey tx = k) with
  | nil => rw [hf] at h; exact absurd h (by simp)
  | cons tx rest =>
    rw [hf] at h
    have htx : countryKey tx = k := by
      have hmem : tx ∈ l.filter (fun tx => countryKey tx = k) := by
        rw [hf]; exact List.mem_cons_self tx rest
      simpa using List.of_mem_filter hmem
    obtain ⟨e', he', h1, h2, h3⟩ := foldC_from_some_fields rest (fC tx none)
    rw [show (tx :: rest).foldl (fun acc t => some (fC t acc)) none =
          rest.foldl (fun acc t => some (fC t acc)) (some (fC tx none)) from rfl,
        he'] at h
    cases h
    rw [h1, h2, h3]
    exact htx

/-- The ProductFrequency entry for a product name records the first
transaction's category and stock and counts all occurrences. -/
theorem product_entry_first_seen (l : List Transaction) (p : String)
    (e : ProductFrequency) (h : lookupA (aggregateAll l).product p = some e) :
    ∃ tx rest, l.filter (fun t => t.ProductName = p) = tx :: rest ∧
      e = { ProductName := tx.ProductName, Category := tx.Category,
            Frequency := 1 + (rest.length : Int), StockQuantity := tx.Stock } := by
  rw [aggregateAll_product, lookup_aggMap] at h
  cases hf : l.filter (fun t => t.ProductName = p) with
  | nil => rw [hf] at h; exact absurd h (by simp)
  | cons tx rest =>
    rw [hf, foldP_closed] at h
    cases h
    exact ⟨tx, rest, rfl, rfl⟩

/-! ### Sorting lemmas -/

theorem sortDesc_sorted {α β : Type} [LinearOrder β] (f : α → β) (l : List α) :
    List.Pairwise (fun a b => f b ≤ f a) (sortDesc f l) := by
  letI : DecidableRel (fun a b : α => f b ≤ f a) :=
    fun a b => inferInstanceAs (Decidable (f b ≤ f a))
  haveI : IsTotal α (fun a b => f b ≤ f a) := ⟨fun a b => le_total (f b) (f a)⟩
  haveI : IsTrans α (fun a b => f b ≤ f a) := ⟨fun _ _ _ hab hbc => le_trans hbc hab⟩
  exact List.sorted_insertionSort (fun a b => f b ≤ f a) l

theorem sortDesc_perm {α β : Type} [LinearOrder β] (f : α → β) (l : List α) :
    List.Perm (sortDesc f l) l := by
  letI : DecidableRel (fun a b : α => f b ≤ f a) :=
    fun a b => inferInstanceAs (Decidable (f b ≤ f a))
  exact List.perm_insertionSort (fun a b => f b ≤ f a) l

/-! ### Batching lemmas -/

theorem mem_chunksBy {α : Type} (n : Nat) (l : List α) (b : List α)
    (hb : b ∈ chunksBy n l) (x : α) (hx : x ∈ b) : x ∈ l := by
  generalize hk : l.length = len
  induction len using Nat.strong_induction_on generalizing l with
  | _ len ih =>
    cases l with
    | nil => rw [chunksBy] at hb; exact absurd hb (by simp)
    | cons a xs =>
      rw [chunksBy] at hb
      rcases List.mem_cons.mp hb with hhead | htail
      · subst hhead
        rcases List.mem_cons.mp hx with hxa | hxtake
        · simp [hxa]
        · exact List.mem_cons_of_mem a (List.take_subset n xs hxtake)
      · have hlt : (xs.drop n).length < len := by
          rw [← hk]
          simp [List.length_drop]
          omega
        exact List.mem_cons_of_mem a
          (List.drop_subset n xs (ih _ hlt (xs.drop n) htail rfl))

theorem foldl_processBatch_count (bs : List (List String)) (s : AggState) (c : Int)
    (h : ∀ b ∈ bs, ∀ line ∈ b, parseTransactionFast (splitComma line) = none) :
    (bs.foldl processBatch (s, c)).2 = c := by
  induction bs generalizing s c with
  | nil => rfl
  | cons b bs ih =>
    have hb : b.filterMap (fun line => parseTransactionFast (splitComma line)) = [] := by
      rw [List.filterMap_eq_nil]
      exact h b (List.mem_cons_self b bs)
    rw [List.foldl_cons]
    have hstep : processBatch (s, c) b = (mergeLocalIntoGlobal (aggregateAll []) s, c) := by
      simp [processBatch, hb]
    rw [hstep]
    exact ih _ _ (fun b2 hb2 => h b2 (List.mem_cons_of_mem _ hb2))

/-- A file whose data rows are all invalid (in particular: no lines at all, or
a header only) makes `streamProcessCSV` fail. -/
theorem streamProcessCSV_no_valid (lines : List String) (now : Int)
    (h : ∀ line ∈ lines.drop 1, parseTransactionFast (splitComma line) = none) :
    (lines = [] ∧ streamProcessCSV lines now = Except.error LoadErr.emptyFile) ∨
    (lines ≠ [] ∧ streamProcessCSV lines now = Except.error LoadErr.noValidRecords) := by
  cases lines with
  | nil => exact Or.inl ⟨rfl, rfl⟩
  | cons hd rest =>
    have hcount : ((chunksBy (batchSize - 1) rest).foldl processBatch (emptyAgg, 0)).2 = 0 :=
      foldl_processBatch_count _ _ _
        (fun b hb line hl => h line (by simpa using mem_chunksBy _ _ b hb line hl))
    refine Or.inr ⟨by simp, ?_⟩
    simp [streamProcessCSV, hcount]

/-! ### Claims -/

/-- C1: for every set of transactions split into two arbitrary partitions,
aggregating each partition into batch-local maps and merging the local
results into the global maps with the merge functions yields the same four
aggregate maps (pointwise, at every key) as aggregating the whole set
directly in one pass. -/
theorem mergeResults_additive (l1 l2 : List Transaction) (k : String) :
    lookupA (mergeLocalIntoGlobal (aggregateAll l2)
        (mergeLocalIntoGlobal (aggregateAll l1) emptyAgg)).country k =
      lookupA (aggregateAll (l1 ++ l2)).country k ∧
    lookupA (mergeLocalIntoGlobal (aggregateAll l2)
        (mergeLocalIntoGlobal (aggregateAll l1) emptyAgg)).product k =
      lookupA (aggregateAll (l1 ++ l2)).product k ∧
    lookupA (mergeLocalIntoGlobal (aggregateAll l2)
        (mergeLocalIntoGlobal (aggregateAll l1) emptyAgg)).monthly k =
      lookupA (aggregateAll (l1 ++ l2)).monthly k ∧
    lookupA (mergeLocalIntoGlobal (aggregateAll l2)
        (mergeLocalIntoGlobal (aggregateAll l1) emptyAgg)).region k =
      lookupA (aggregateAll (l1 ++ l2)).region k :=
  mergedTwo_pointwise l1 l2 k

/-- C2: for every non-negative limit `n` and every snapshot, `TopProducts(n)`
returns exactly the first `min(n, number of distinct products)` elements of
the pre-sorted product slice (a plain prefix, no re-sorting and no panic even
when `n` exceeds the length), and likewise `TopRegions(n)`. -/
theorem topN_truncation_bound (pre : PrecomputedData) (n : Int) (h : 0 ≤ n) :
    TopProducts pre n = some (pre.topProducts.take n.toNat) ∧
    (pre.topProducts.take n.toNat).length = min n.toNat pre.topProducts.length ∧
    TopRegions pre n = some (pre.topRegions.take n.toNat) ∧
    (pre.topRegions.take n.toNat).length = min n.toNat pre.topRegions.length := by
  refine ⟨?_, ?_, ?_, ?_⟩
  · by_cases hlen : (pre.topProducts.length : Int) ≤ n
    · have hle : pre.topProducts.length ≤ n.toNat := by omega
      simp [TopProducts, hlen, List.take_of_length_le hle]
    · simp [TopProducts, hlen, h]
  · rw [List.length_take]
  · by_cases hlen : (pre.topRegions.length : Int) ≤ n
    · have hle : pre.topRegions.length ≤ n.toNat := by omega
      simp [TopRegions, hlen, List.take_of_length_le hle]
    · simp [TopRegions, hlen, h]
  · rw [List.length_take]

def samplePre : PrecomputedData :=
  ⟨[], [⟨"A", "X", 3, 1⟩, ⟨"B", "X", 2, 1⟩, ⟨"C", "Y", 1, 1⟩], [], [⟨"West", 5, 2⟩], 0, 3⟩

theorem topN_truncation_bound_witness :
    TopProducts samplePre 5 = some (samplePre.topProducts.take (5 : Int).toNat) ∧
    (samplePre.topProducts.take (5 : Int).toNat).length =
      min (5 : Int).toNat samplePre.topProducts.length ∧
    TopRegions samplePre 5 = some (samplePre.topRegions.take (5 : Int).toNat) ∧
    (samplePre.topRegions.take (5 : Int).toNat).length =
      min (5 : Int).toNat samplePre.topRegions.length :=
  topN_truncation_bound samplePre 5 (by decide)

/-- C10: for every negative limit, `TopProducts(n)` and `TopRegions(n)` fall
through the `len <= limit` test (a length is never `≤` a negative number) and
reach the slice expression `[:limit]` with a negative bound, which panics
(modelled as `none`): the truncation accessors are total only for `n ≥ 0`. -/
theorem topN_negative_panics (pre : PrecomputedData) (n : Int) (h : n < 0) :
    TopProducts pre n = none ∧ TopRegions pre n = none := by
  have h1 : ¬ (pre.topProducts.length : Int) ≤ n := by omega
  have h2 : ¬ (pre.topRegions.length : Int) ≤ n := by omega
  have h3 : ¬ (0 : Int) ≤ n := by omega
  simp [TopProducts, TopRegions, h1, h2, h3]

def sampleEmptyPre : PrecomputedData := ⟨[], [], [], [], 0, 0⟩

theorem topN_negative_panics_witness :
    TopProducts sampleEmptyPre (-1) = none ∧ TopRegions sampleEmptyPre (-1) = none :=
  topN_negative_panics sampleEmptyPre (-1) (by decide)

/-- C6: in every finalized snapshot, each of the four rollup slices is sorted
descending by its defining metric: adjacent elements of `countryRevenue` by
total revenue, `topProducts` by frequency, `monthlySales` by volume (not by
month order), `topRegions` by revenue. -/
theorem rollups_sorted_descending (e : Entries) (cnt now : Int) :
    List.Chain' (fun a b => b.TotalRevenue ≤ a.TotalRevenue)
      (finalizeWith e cnt now).countryRevenue ∧
    List.Chain' (fun a b => b.Frequency ≤ a.Frequency)
      (finalizeWith e cnt now).topProducts ∧
    List.Chain' (fun a b => b.Volume ≤ a.Volume)
      (finalizeWith e cnt now).monthlySales ∧
    List.Chain' (fun a b => b.Revenue ≤ a.Revenue)
      (finalizeWith e cnt now).topRegions :=
  ⟨(sortDesc_sorted (fun cr => cr.TotalRevenue) e.country).chain',
   (sortDesc_sorted (fun pf => pf.Frequency) e.product).chain',
   (sortDesc_sorted (fun md => md.Volume) e.monthly).chain',
   (sortDesc_sorted (fun rr => rr.Revenue) e.region).chain'⟩

/-- C7: `LoadFromCSV` installs a cached snapshot (skipping recomputation) only
if the cache file loaded and decoded and the source file's modification time
is not after the snapshot's `last_modified`; and when the cache read/decode
fails the call degenerates to exactly the full recomputation of the source
file — a cache failure is never itself an error. -/
theorem cache_policy_only_if (prior : PrecomputedData) (cache : Option PrecomputedData)
    (srcMod : Option Int) (lines : List String) (now : Int) :
    ((LoadFromCSV prior cache srcMod lines now).usedCache = true →
      ∃ c t, cache = some c ∧ srcMod = some t ∧ t ≤ c.lastModified ∧
        LoadFromCSV prior cache srcMod lines now =
          { snapshot := c, err := none, usedCache := true }) ∧
    (cache = none →
      LoadFromCSV prior cache srcMod lines now =
        (match streamProcessCSV lines now with
         | Except.ok p => { snapshot := p, err := none, usedCache := false }
         | Except.error e =>
           { snapshot := prior, err := some e, usedCache := false })) := by
  constructor
  · intro hused
    cases cache with
    | none =>
      exfalso
      cases hs : streamProcessCSV lines now <;> simp [LoadFromCSV, hs] at hused
    | some c =>
      cases srcMod with
      | none =>
        exfalso
        cases hs : streamProcessCSV lines now <;> simp [LoadFromCSV, hs] at hused
      | some t =>
        by_cases hlt : t < c.lastModified
        · exact ⟨c, t, rfl, rfl, le_of_lt hlt, by simp [LoadFromCSV, hlt]⟩
        · exfalso
          cases hs : streamProcessCSV lines now <;>
            simp [LoadFromCSV, hlt, hs] at hused
  · intro hc
    subst hc
    rfl

theorem cache_policy_only_if_witness :
    ∃ c t, (some (⟨[], [], [], [], 10, 7⟩ : PrecomputedData)) = some c ∧
      (some (5 : Int)) = some t ∧ t ≤ c.lastModified ∧
      LoadFromCSV ⟨[], [], [], [], 0, 0⟩ (some ⟨[], [], [], [], 10, 7⟩)
          (some 5) ["header"] 0 =
        { snapshot := c, err := none, usedCache := true } :=
  (cache_policy_only_if ⟨[], [], [], [], 0, 0⟩ (some ⟨[], [], [], [], 10, 7⟩)
    (some 5) ["header"] 0).1 (by decide)

/-- C3 as stated is false: when a decodable cache snapshot exists whose
`last_modified` is after the (empty) source file's modification time,
`LoadFromCSV` takes the cache path without ever reading the file, returns no
error, and replaces the published snapshot — here an empty file yields
success and a snapshot change. -/
theorem loadFromCSV_fatal_empty_cache_cex :
    LoadFromCSV ⟨[], [], [], [], 0, 0⟩ (some ⟨[], [], [], [], 10, 7⟩)
        (some 5) [] 0 =
      { snapshot := ⟨[], [], [], [], 10, 7⟩, err := none, usedCache := true } ∧
    (⟨[], [], [], [], 10, 7⟩ : PrecomputedData) ≠ ⟨[], [], [], [], 0, 0⟩ := by
  exact ⟨by decide, by decide⟩

/-- C3 amended: provided no valid cache snapshot is installed (cache missing,
unreadable, stale, or the source unstat-able), loading a file that is empty,
header-only, or whose data rows are all invalid returns an error and leaves
the prior published snapshot untouched. -/
theorem loadFromCSV_fatal_empty (prior : PrecomputedData)
    (cache : Option PrecomputedData) (srcMod : Option Int) (lines : List String)
    (now : Int)
    (hnocache : ∀ c t, cache = some c → srcMod = some t → ¬ t < c.lastModified)
    (hinvalid : ∀ line ∈ lines.drop 1, parseTransactionFast (splitComma line) = none) :
    ∃ e, LoadFromCSV prior cache srcMod lines now =
      { snapshot := prior, err := some e, usedCache := false } := by
  have herr : ∃ e, streamProcessCSV lines now = Except.error e := by
    rcases streamProcessCSV_no_valid lines now hinvalid with ⟨_, h⟩ | ⟨_, h⟩
    exacts [⟨_, h⟩, ⟨_, h⟩]
  obtain ⟨e, he⟩ := herr
  refine ⟨e, ?_⟩
  cases cache with
  | none => simp [LoadFromCSV, he]
  | some c =>
    cases srcMod with
    | none => simp [LoadFromCSV, he]
    | some t =>
      have hn : ¬ t < c.lastModified := hnocache c t rfl rfl
      simp [LoadFromCSV, hn, he]

theorem loadFromCSV_fatal_empty_witness :
    ∃ e, LoadFromCSV ⟨[], [], [], [], 0, 0⟩ none none [] 0 =
      { snapshot := ⟨[], [], [], [], 0, 0⟩, err := some e, usedCache := false } :=
  loadFromCSV_fatal_empty ⟨[], [], [], [], 0, 0⟩ none none [] 0
    (fun c t hc _ => nomatch hc) (fun line hl => nomatch hl)

/-- C4 as stated is false: for two transactions with the same product name,
`aggregateTransaction` creates the entry from the first occurrence and later
occurrences only bump the frequency, so the stock quantity kept is the first
seen (5), not the last seen (7). -/
theorem productFrequency_last_seen_cex :
    lookupA (aggregateAll
        [⟨⟨2023, 1, 15⟩, "USA", "West", "A", "X", 1, 1, 1, 5⟩,
         ⟨⟨2023, 1, 16⟩, "USA", "West", "A", "X", 1, 1, 1, 7⟩]).product "A" =
      some ⟨"A", "X", 2, 5⟩ ∧
    (⟨⟨2023, 1, 16⟩, "USA", "West", "A", "X", 1, 1, 1, 7⟩ : Transaction).Stock = 7 ∧
    (5 : Int) ≠ 7 :=
  ⟨by decide, by decide, by decide⟩

/-- C4 amended: for every sequence of transactions aggregated into a
ProductFrequency entry, including across batch merges, the entry's stock
quantity and category both equal those of the first seen transaction for that
product name (not the last, not a sum), and the frequency counts all
occurrences. -/
theorem productFrequency_first_seen (l1 l2 : List Transaction) (p : String)
    (e : ProductFrequency)
    (h : lookupA (mergeLocalIntoGlobal (aggregateAll l2)
        (mergeLocalIntoGlobal (aggregateAll l1) emptyAgg)).product p = some e) :
    ∃ tx rest, (l1 ++ l2).filter (fun t => t.ProductName = p) = tx :: rest ∧
      e.Category = tx.Category ∧ e.StockQuantity = tx.Stock ∧
      e.Frequency = 1 + (rest.length : Int) := by
  rw [(mergedTwo_pointwise l1 l2 p).2.1] at h
  obtain ⟨tx, rest, hf, he⟩ := product_entry_first_seen _ _ _ h
  exact ⟨tx, rest, hf, by rw [he], by rw [he], by rw [he]⟩

theorem productFrequency_first_seen_witness :
    ∃ (tx : Transaction) (rest : List Transaction),
      (([⟨⟨2023, 1, 15⟩, "USA", "West", "A", "X", 1, 1, 1, 5⟩] : List Transaction) ++
        ([⟨⟨2023, 1, 16⟩, "USA", "West", "A", "X", 1, 1, 1, 7⟩] : List Transaction)).filter
          (fun t => t.ProductName = "A") = tx :: rest ∧
      (⟨"A", "X", 2, 5⟩ : ProductFrequency).Category = tx.Category ∧
      (⟨"A", "X", 2, 5⟩ : ProductFrequency).StockQuantity = tx.Stock ∧
      (⟨"A", "X", 2, 5⟩ : ProductFrequency).Frequency = 1 + (rest.length : Int) :=
  productFrequency_first_seen
    [⟨⟨2023, 1, 15⟩, "USA", "West", "A", "X", 1, 1, 1, 5⟩]
    [⟨⟨2023, 1, 16⟩, "USA", "West", "A", "X", 1, 1, 1, 7⟩]
    "A" ⟨"A", "X", 2, 5⟩ (by decide)

def collideA : Transaction := ⟨⟨2023, 1, 15⟩, "a", "W", "b|c", "d", 1, 1, 1, 1⟩

def collideB : Transaction := ⟨⟨2023, 1, 16⟩, "a|b", "E", "c", "d", 1, 1, 1, 1⟩

/-- C9 as stated is false: the composite key is built by joining the three
fields with `"|"`, so two transactions with distinct (country, product,
category) triples — ("a", "b|c", "d") and ("a|b", "c", "d") — share the key
"a|b|c|d" and are accumulated into one single entry (transaction count 2),
not into distinct entries. -/
theorem countryRevenue_distinct_triples_merge_cex :
    (collideA.Country, collideA.ProductName, collideA.Category) ≠
      (collideB.Country, collideB.ProductName, collideB.Category) ∧
    (aggregateAll [collideA, collideB]).country.length = 1 ∧
    (lookupA (aggregateAll [collideA, collideB]).country "a|b|c|d").map
        (fun e => (e.Country, e.ProductName, e.Category, e.Transactions)) =
      some ("a", "b|c", "d", 2) :=
  ⟨by decide, by decide, by decide⟩

/-- C9 amended: each distinct (country, product name, category) triple
appears in at most one CountryRevenue map entry — entries at distinct keys
always carry distinct triples; but two transactions with distinct triples are
only guaranteed distinct entries when their `"|"`-joined composite keys
differ (the join is not injective, see the counterexample). -/
theorem countryRevenue_triples_distinct (l : List Transaction) (k1 k2 : String)
    (e1 e2 : CountryRevenue) (hne : k1 ≠ k2)
    (h1 : lookupA (aggregateAll l).country k1 = some e1)
    (h2 : lookupA (aggregateAll l).country k2 = some e2) :
    (e1.Country, e1.ProductName, e1.Category) ≠
      (e2.Country, e2.ProductName, e2.Category) := by
  intro heq
  apply hne
  rw [← country_entry_key l k1 e1 h1, ← country_entry_key l k2 e2 h2]
  simp only [Prod.mk.injEq] at heq
  rw [heq.1, heq.2.1, heq.2.2]

def sampleTwoCountries : List Transaction :=
  [⟨⟨2023, 1, 15⟩, "USA", "West", "Laptop", "El", 1, 1, 1, 1⟩,
   ⟨⟨2023, 1, 16⟩, "Canada", "East", "Mouse", "El", 1, 1, 1, 1⟩]

theorem countryRevenue_triples_distinct_witness :
    ((⟨"USA", "Laptop", "El", 1, 1⟩ : CountryRevenue).Country,
      (⟨"USA", "Laptop", "El", 1, 1⟩ : CountryRevenue).ProductName,
      (⟨"USA", "Laptop", "El", 1, 1⟩ : CountryRevenue).Category) ≠
    ((⟨"Canada", "Mouse", "El", 1, 1⟩ : CountryRevenue).Country,
      (⟨"Canada", "Mouse", "El", 1, 1⟩ : CountryRevenue).ProductName,
      (⟨"Canada", "Mouse", "El", 1, 1⟩ : CountryRevenue).Category) :=
  countryRevenue_triples_distinct sampleTwoCountries
    "USA|Laptop|El" "Canada|Mouse|El"
    ⟨"USA", "Laptop", "El", 1, 1⟩ ⟨"Canada", "Mouse", "El", 1, 1⟩
    (by decide) (by decide) (by decide)

instance (s : AggState) (e : Entries) : Decidable (ValidEntries s e) := by
  unfold ValidEntries
  infer_instance

def sampleTwoProducts : List Transaction :=
  [⟨⟨2023, 1, 15⟩, "USA", "West", "A", "X", 1, 1, 1, 1⟩,
   ⟨⟨2023, 2, 16⟩, "USA", "East", "B", "X", 1, 1, 1, 1⟩]

def sampleEntriesA : Entries := canonEntries (aggregateAll sampleTwoProducts)

def sampleEntriesB : Entries :=
  { sampleEntriesA with product := sampleEntriesA.product.reverse }

/-- C8 as stated is false: the slices handed to the sorts come from Go map
iteration, whose order is unspecified, and the comparator treats equal
metrics as ties, so two runs of `SetData` on the same two equal-frequency
products may observe the product entries in either order and publish the two
tied entries in different orders — the rollup contents are not bit-for-bit
deterministic. -/
theorem setData_bitwise_identical_cex :
    ValidEntries (aggregateAll sampleTwoProducts) sampleEntriesA ∧
    ValidEntries (aggregateAll sampleTwoProducts) sampleEntriesB ∧
    (SetData sampleTwoProducts sampleEntriesA 0).topProducts ≠
      (SetData sampleTwoProducts sampleEntriesB 0).topProducts :=
  ⟨by decide, by decide, by decide⟩

/-- C8 amended: two `SetData` runs on identical input produce the same rollup
contents up to reordering of entries with equal metric values — each of the
four published slices of one run is a permutation of the other run's; the
element order itself is fixed only as far as the descending sort constrains
it and can differ between runs on tied metrics. -/
theorem setData_rollups_perm (d : List Transaction) (e1 e2 : Entries)
    (n1 n2 : Int) (h1 : ValidEntries (aggregateAll d) e1)
    (h2 : ValidEntries (aggregateAll d) e2) :
    List.Perm (SetData d e1 n1).countryRevenue (SetData d e2 n2).countryRevenue ∧
    List.Perm (SetData d e1 n1).topProducts (SetData d e2 n2).topProducts ∧
    List.Perm (SetData d e1 n1).monthlySales (SetData d e2 n2).monthlySales ∧
    List.Perm (SetData d e1 n1).topRegions (SetData d e2 n2).topRegions := by
  obtain ⟨h1c, h1p, h1m, h1r⟩ := h1
  obtain ⟨h2c, h2p, h2m, h2r⟩ := h2
  exact ⟨((sortDesc_perm _ _).trans (h1c.trans h2c.symm)).trans (sortDesc_perm _ _).symm,
    ((sortDesc_perm _ _).trans (h1p.trans h2p.symm)).trans (sortDesc_perm _ _).symm,
    ((sortDesc_perm _ _).trans (h1m.trans h2m.symm)).trans (sortDesc_perm _ _).symm,
    ((sortDesc_perm _ _).trans (h1r.trans h2r.symm)).trans (sortDesc_perm _ _).symm⟩

theorem setData_rollups_perm_witness :
    List.Perm (SetData sampleTwoProducts sampleEntriesA 0).countryRevenue
      (SetData sampleTwoProducts sampleEntriesB 0).countryRevenue ∧
    List.Perm (SetData sampleTwoProducts sampleEntriesA 0).topProducts
      (SetData sampleTwoProducts sampleEntriesB 0).topProducts ∧
    List.Perm (SetData sampleTwoProducts sampleEntriesA 0).monthlySales
      (SetData sampleTwoProducts sampleEntriesB 0).monthlySales ∧
    List.Perm (SetData sampleTwoProducts sampleEntriesA 0).topRegions
      (SetData sampleTwoProducts sampleEntriesB 0).topRegions :=
  setData_rollups_perm sampleTwoProducts sampleEntriesA sampleEntriesB 0 0
    (by decide) (by decide)

/-- C5: a raw input line parses into a Transaction exactly when its
comma-split record has at least 13 fields, field 1 parses as an ISO
`YYYY-MM-DD` date, fields 8 and 10 parse as decimal numbers and fields 9 and
11 parse as integers (each after trimming); on success the country, region,
product name and category come (trimmed) from fields 3, 4, 6 and 7, and any
failure produces no transaction at all. -/
theorem parseTransactionFast_iff (line : String) :
    ((parseTransactionFast (splitComma line)).isSome ↔
      (13 ≤ (splitComma line).length ∧
        (parseDateGo (trimSpaceGo ((splitComma line).getD 1 ""))).isSome ∧
        (parseFloatGo (trimSpaceGo ((splitComma line).getD 8 ""))).isSome ∧
        (parseIntGo (trimSpaceGo ((splitComma line).getD 9 ""))).isSome ∧
        (parseFloatGo (trimSpaceGo ((splitComma line).getD 10 ""))).isSome ∧
        (parseIntGo (trimSpaceGo ((splitComma line).getD 11 ""))).isSome)) ∧
    (∀ tx, parseTransactionFast (splitComma line) = some tx →
      tx.Country = trimSpaceGo ((splitComma line).getD 3 "") ∧
      tx.Region = trimSpaceGo ((splitComma line).getD 4 "") ∧
      tx.ProductName = trimSpaceGo ((splitComma line).getD 6 "") ∧
      tx.Category = trimSpaceGo ((splitComma line).getD 7 "")) := by
  generalize splitComma line = record
  by_cases hlen : record.length < 13
  · have h13 : ¬ 13 ≤ record.length := by omega
    rw [parseTransactionFast, if_pos hlen]
    simp [h13]
  · have h13 : 13 ≤ record.length := by omega
    rw [parseTransactionFast, if_neg hlen]
    cases hd : parseDateGo (trimSpaceGo (record.getD 1 "")) with
    | none => simp [hd]
    | some d =>
      cases hp : parseFloatGo (trimSpaceGo (record.getD 8 "")) with
      | none => simp [hp]
      | some price =>
        cases hq : parseIntGo (trimSpaceGo (record.getD 9 "")) with
        | none => simp [hq]
        | some quantity =>
          cases ht : parseFloatGo (trimSpaceGo (record.getD 10 "")) with
          | none => simp [ht]
          | some totalPrice =>
            cases hs : parseIntGo (trimSpaceGo (record.getD 11 "")) with
            | none => simp [hs]
            | some stock =>
              constructor
              · simp [h13]
              · intro tx htx
                cases htx
                exact ⟨rfl, rfl, rfl, rfl⟩

theorem parseTransactionFast_iff_witness :
    (parseTransactionFast (splitComma
      "t1,2023-01-15,u7,USA,West,p1,Laptop,Electronics,999.99,2,1999.98,12,2023-01-10")).isSome ∧
    (∀ tx, parseTransactionFast (splitComma
        "t1,2023-01-15,u7,USA,West,p1,Laptop,Electronics,999.99,2,1999.98,12,2023-01-10") =
          some tx → tx.Country = "USA" ∧ tx.ProductName = "Laptop") := by
  have h := parseTransactionFast_iff
    "t1,2023-01-15,u7,USA,West,p1,Laptop,Electronics,999.99,2,1999.98,12,2023-01-10"
  constructor
  · exact h.1.mpr ⟨by decide, by decide, by decide, by decide, by decide, by decide⟩
  · intro tx htx
    obtain ⟨hc, _, hn, _⟩ := h.2 tx htx
    exact ⟨by rw [hc]; decide, by rw [hn]; decide⟩
